import Mathlib

/-!
Shallow embedding of the statistical pipeline of `kshitij10496/demeanor`
(src/main.py, src/app.py) and verification of its specification claims.

Numeric values flowing through the Python code are numpy/pandas floats.
They are modelled as `Option ℚ`: `some q` is a finite value, `none`
stands for a non-finite float (NaN or an infinity).  numpy produces such
values silently (a runtime warning at most, never an exception).  The
transcendental library functions (`np.log`, the square root inside
`pandas.Series.std`, `scipy.stats.norm.cdf`) are taken as abstract
function parameters `log`, `sqrt`, `Phi` on the finite values.
-/

namespace Demeanor

/-- A numpy/pandas float: `some q` is finite, `none` is non-finite
(NaN or an infinity). -/
abbrev PyFloat := Option ℚ

/-- Model of `np.log`: finite (with value given by the abstract `log`)
exactly on strictly positive inputs; `np.log 0` is `-inf` and `np.log`
of a negative number is NaN, both non-finite and produced without any
exception. -/
def npLog (log : ℚ → ℚ) (x : ℚ) : PyFloat :=
  if 0 < x then some (log x) else none

/-- Float subtraction as used on the log column: a non-finite operand
never yields a finite result here (`finite - (±inf)` is `∓inf`,
`NaN` propagates, and `-inf - -inf` is NaN). -/
def pySub : PyFloat → PyFloat → PyFloat
  | some a, some b => some (a - b)
  | _, _ => none

/-- The `Delta` column written by `compute_daily_price_change`
(src/main.py lines 43-49): `np.log(df.Close) - np.log(df.Close.shift(1))`.
`shift(1)` makes the first entry non-finite (NaN); entry `i > 0` is
`log (close i) - log (close (i-1))`. -/
def dailyLogReturns (log : ℚ → ℚ) : List ℚ → List PyFloat
  | [] => []
  | p :: ps =>
      none :: List.zipWith (fun prev cur => pySub (npLog log cur) (npLog log prev)) (p :: ps) ps

/-- Model of `df.dropna()` applied to the delta column (src/main.py
line 153): rows whose value is NaN are removed.  For a strictly positive
price series the only non-finite delta is the leading shift-NaN, so on
that domain dropping every `none` is exact. -/
def dropna : List PyFloat → List ℚ :=
  List.filterMap id

/-- Arithmetic mean of a pandas series (`s.mean()`). -/
def sampleMean (s : List ℚ) : ℚ :=
  s.sum / s.length

/-- The sample variance underlying `s.std()`: the pandas default is
`ddof = 1`, i.e. the sum of squared deviations from the mean divided by
`n - 1`. -/
def sampleVar (s : List ℚ) : ℚ :=
  (s.map (fun x => (x - sampleMean s) ^ 2)).sum / ((s.length : ℚ) - 1)

/-- Model of `s.std()` (sample standard deviation, `ddof = 1`): NaN for
fewer than two points, otherwise the square root of the sample
variance. -/
def pdStd (sqrt : ℚ → ℚ) (s : List ℚ) : PyFloat :=
  if s.length ≤ 1 then none else some (sqrt (sampleVar s))

/-- The function `z_score` (src/main.py lines 52-54):
`(s - s.mean()) / s.std()`.  A non-finite standard deviation makes every
entry non-finite, and a zero standard deviation does too (`0/0` is NaN);
in either case the series is returned silently, no error is raised. -/
def z_score (sqrt : ℚ → ℚ) (s : List ℚ) : List PyFloat :=
  match pdStd sqrt s with
  | none => s.map (fun _ => none)
  | some sd => s.map (fun x => if sd = 0 then none else some ((x - sampleMean s) / sd))

/-- The z-score pipeline of `main` (src/main.py lines 150-156): compute
the delta column, drop the NaN rows, normalize. -/
def analysisZScores (log sqrt : ℚ → ℚ) (prices : List ℚ) : List PyFloat :=
  z_score sqrt (dropna (dailyLogReturns log prices))

/-- The fixed threshold list of `compute_distribution_stats`
(src/main.py line 109). -/
def thresholds : List ℚ :=
  [1, 2, 3, 4, 5, 6, 7, 8, 9, 10]

/-- One entry of `(z_scores.abs() > threshold)` (src/main.py line 118):
strict comparison; a NaN entry compares false. -/
def absGt (t : ℚ) : PyFloat → Bool
  | some z => decide (t < |z|)
  | none => false

/-- One printed row of the distribution report (src/main.py
lines 116-135).  `observed_count` is an integer count; the percentages
obtained by dividing by `total_days` are floats and are NaN when
`total_days = 0` (numpy turns `0/0` into NaN with a warning, it does not
raise). -/
structure DistRow where
  threshold : ℚ
  observed_count : ℕ
  observed_pct : PyFloat
  expected_count : ℚ
  expected_pct : ℚ
  diff_count : ℚ
  diff_pct : PyFloat
  deriving DecidableEq

/-- The body of the threshold loop of `compute_distribution_stats`
(src/main.py lines 116-135) for one threshold `t`. -/
def mkRow (Phi : ℚ → ℚ) (z_scores : List PyFloat) (t : ℚ) : DistRow :=
  let total_days : ℕ := z_scores.length
  let observed_count : ℕ := z_scores.countP (absGt t)
  let observed_pct : PyFloat :=
    if total_days = 0 then none else some ((observed_count : ℚ) / total_days * 100)
  let expected_prob : ℚ := 2 * (1 - Phi t)
  let expected_count : ℚ := expected_prob * total_days
  let expected_pct : ℚ := expected_prob * 100
  { threshold := t
    observed_count := observed_count
    observed_pct := observed_pct
    expected_count := expected_count
    expected_pct := expected_pct
    diff_count := (observed_count : ℚ) - expected_count
    diff_pct :=
      match observed_pct with
      | none => none
      | some p => some (p - expected_pct) }

/-- The report produced by `compute_distribution_stats` (src/main.py
lines 98-137): one row per threshold, in the order of `thresholds`.
The source prints each row; the computed values are modelled as the
returned list.  The function is total: an empty z-score series yields a
full report whose percentages are NaN, never an exception. -/
def compute_distribution_stats (Phi : ℚ → ℚ) (z_scores : List PyFloat) : List DistRow :=
  thresholds.map (mkRow Phi z_scores)

/-- The dataframe as used by the pipeline: the fetched `Close` column,
and the `Delta` column once `compute_daily_price_change` has written it
(absent before). -/
structure DataFrame where
  close : List ℚ
  delta : Option (List PyFloat)
  deriving DecidableEq

/-- The function `compute_daily_price_change` (src/main.py lines 43-49):
`df["Delta"] = np.log(df["Close"]) - np.log(df["Close"].shift(1))` writes
the new column into the dataframe it was given (an in-place update of the
object the caller passed, under Python aliasing) and returns that same
updated dataframe. -/
def compute_daily_price_change (log : ℚ → ℚ) (df : DataFrame) : DataFrame :=
  { df with delta := some (dailyLogReturns log df.close) }

/-- The ticker table `TICKERS` of src/main.py lines 11-20 (its keys, in
order; the web layer only uses the keys). -/
def TICKERS : List String :=
  ["DJIA", "SP500", "NASDAQ", "NIFTY50"]

/-- Responses of the `/analyze` route: the 400 page
(`"Invalid index selected", 400`) or the rendered results page. -/
inductive AnalyzeResponse where
  | badRequest
  | resultsPage (result : String)
  deriving DecidableEq

/-- Modelled from the spec: `analyze_index_for_web` is imported by
src/app.py from `main` but is not defined in any file under src; per the
spec the analysis pipeline is run for the named ticker and its result is
what the results page renders.  Only the fact that it is invoked on the
validated ticker matters to the route logic modelled here. -/
def analyze_index_for_web (index_name : String) : String :=
  index_name

/-- The `/analyze` route handler (src/app.py lines 16-27):
`request.form.get("index")` is `None` when the field is absent; the
Python truthiness test `not index_name` catches `None` and the empty
string, and membership is tested against the keys of `TICKERS`. -/
def analyze (form_index : Option String) : AnalyzeResponse :=
  match form_index with
  | none => AnalyzeResponse.badRequest
  | some index_name =>
      if index_name = "" ∨ index_name ∉ TICKERS then AnalyzeResponse.badRequest
      else AnalyzeResponse.resultsPage (analyze_index_for_web index_name)

/-- The return series as the specification words it: for each adjacent
pair of closing prices, `ln` of the later minus `ln` of the earlier. -/
def specReturns (log : ℚ → ℚ) (prices : List ℚ) : List ℚ :=
  List.zipWith (fun prev cur => log cur - log prev) prices prices.tail

/-- The z-score series as the specification words it: each return of the
whole return series, normalized by the mean and the sample standard
deviation of that whole series. -/
def specZScores (log sqrt : ℚ → ℚ) (prices : List ℚ) : List ℚ :=
  (specReturns log prices).map
    (fun r => (r - sampleMean (specReturns log prices)) / sqrt (sampleVar (specReturns log prices)))

lemma sum_map_div (l : List ℚ) (f : ℚ → ℚ) (d : ℚ) :
    (l.map fun x => f x / d).sum = (l.map f).sum / d := by
  induction l with
  | nil => simp
  | cons a t ih => simp [ih, add_div]

lemma sum_map_sub_const (l : List ℚ) (m : ℚ) :
    (l.map fun x => x - m).sum = l.sum - l.length * m := by
  induction l with
  | nil => simp
  | cons a t ih =>
      simp only [List.map_cons, List.sum_cons, ih, List.length_cons]
      push_cast
      ring

lemma sum_pos_of_mem (l : List ℚ) (h0 : ∀ x ∈ l, 0 ≤ x) (c : ℚ) (hc : c ∈ l)
    (hcpos : 0 < c) : 0 < l.sum := by
  induction l with
  | nil => simp at hc
  | cons a t ih =>
      rw [List.sum_cons]
      rcases List.mem_cons.mp hc with rfl | hct
      · have ht : 0 ≤ t.sum := List.sum_nonneg fun x hx => h0 x (List.mem_cons_of_mem _ hx)
        linarith
      · have ha : 0 ≤ a := h0 a (List.mem_cons_self _ _)
        have ht : 0 < t.sum := ih (fun x hx => h0 x (List.mem_cons_of_mem _ hx)) hct
        linarith

lemma two_le_length_of_mem_ne (l : List ℚ) (a b : ℚ) (ha : a ∈ l) (hb : b ∈ l)
    (hab : a ≠ b) : 2 ≤ l.length := by
  match l with
  | [] => simp at ha
  | [x] =>
      rw [List.mem_singleton] at ha hb
      exact absurd (ha.trans hb.symm) hab
  | x :: y :: t => simp

lemma sampleMean_eq (l : List ℚ) (hl : l ≠ []) : (l.length : ℚ) * sampleMean l = l.sum := by
  have hn0 : l.length ≠ 0 := fun h => hl (List.length_eq_zero.mp h)
  have hn : (l.length : ℚ) ≠ 0 := by exact_mod_cast hn0
  rw [sampleMean, mul_div_cancel₀ _ hn]

lemma sampleMean_center (l : List ℚ) (sd : ℚ) :
    sampleMean (l.map fun x => (x - sampleMean l) / sd) = 0 := by
  rcases eq_or_ne l [] with rfl | hl
  · simp [sampleMean]
  · rw [sampleMean, sum_map_div l (fun x => x - sampleMean l) sd,
      sum_map_sub_const l (sampleMean l), sampleMean_eq l hl]
    simp

lemma sum_sq_dev_eq (l : List ℚ) (h2 : 2 ≤ l.length) :
    (l.map fun x => (x - sampleMean l) ^ 2).sum = sampleVar l * ((l.length : ℚ) - 1) := by
  have hne : ((l.length : ℚ) - 1) ≠ 0 := by
    have : (2 : ℚ) ≤ (l.length : ℚ) := by exact_mod_cast h2
    intro h
    nlinarith
  rw [sampleVar, div_mul_cancel₀ _ hne]

lemma sampleVar_center (l : List ℚ) (sd : ℚ) (h2 : 2 ≤ l.length)
    (hsd : sd ^ 2 = sampleVar l) (hV : sampleVar l ≠ 0) :
    sampleVar (l.map fun x => (x - sampleMean l) / sd) = 1 := by
  have hne : ((l.length : ℚ) - 1) ≠ 0 := by
    have : (2 : ℚ) ≤ (l.length : ℚ) := by exact_mod_cast h2
    intro h
    nlinarith
  rw [sampleVar, sampleMean_center l sd, List.map_map]
  have hmap : ((fun y => (y - 0) ^ 2) ∘ fun x => (x - sampleMean l) / sd)
      = fun x => ((x - sampleMean l) ^ 2) / sampleVar l := by
    funext x
    simp only [Function.comp, sub_zero, div_pow, hsd]
  rw [hmap, sum_map_div l (fun x => (x - sampleMean l) ^ 2) (sampleVar l),
    sum_sq_dev_eq l h2, List.length_map]
  rw [mul_comm, mul_div_assoc, div_self hV, mul_one, div_self hne]

lemma sampleVar_of_all_eq (l : List ℚ) (h : ∀ x ∈ l, ∀ y ∈ l, x = y) :
    sampleVar l = 0 := by
  rcases eq_or_ne l [] with rfl | hl
  · simp [sampleVar]
  · obtain ⟨c, t, rfl⟩ := List.exists_cons_of_ne_nil hl
    have hall : ∀ x ∈ c :: t, x = c :=
      fun x hx => h x hx c (List.mem_cons_self _ _)
    have hsum : (c :: t).sum = ((c :: t).length : ℚ) * c := by
      rw [List.sum_eq_card_nsmul _ c hall, nsmul_eq_mul]
    have hmean : sampleMean (c :: t) = c := by
      have hn : ((c :: t).length : ℚ) ≠ 0 := by
        push_cast [List.length_cons]
        positivity
      rw [sampleMean, hsum, mul_div_cancel_left₀ _ hn]
    have hzero : ((c :: t).map fun x => (x - sampleMean (c :: t)) ^ 2).sum = 0 := by
      apply List.sum_eq_zero
      intro y hy
      obtain ⟨x, hx, rfl⟩ := List.mem_map.mp hy
      rw [hmean, hall x hx, sub_self]
      ring
    rw [sampleVar, hzero, zero_div]

lemma sampleVar_pos (l : List ℚ) (a b : ℚ) (ha : a ∈ l) (hb : b ∈ l)
    (hab : a ≠ b) : 0 < sampleVar l := by
  have h2 : 2 ≤ l.length := two_le_length_of_mem_ne l a b ha hb hab
  have hden : (0 : ℚ) < (l.length : ℚ) - 1 := by
    have : (2 : ℚ) ≤ (l.length : ℚ) := by exact_mod_cast h2
    linarith
  obtain ⟨c, hc, hcm⟩ : ∃ c ∈ l, c ≠ sampleMean l := by
    by_contra hcon
    push_neg at hcon
    exact hab ((hcon a ha).trans (hcon b hb).symm)
  have hnum : 0 < (l.map fun x => (x - sampleMean l) ^ 2).sum := by
    refine sum_pos_of_mem _ ?_ ((c - sampleMean l) ^ 2)
      (List.mem_map_of_mem (fun x => (x - sampleMean l) ^ 2) hc) ?_
    · intro y hy
      obtain ⟨x, _, rfl⟩ := List.mem_map.mp hy
      positivity
    · exact lt_of_le_of_ne (sq_nonneg _)
        (Ne.symm (pow_ne_zero 2 (sub_ne_zero.mpr hcm)))
  exact div_pos hnum hden

lemma pySub_none_right (y : PyFloat) : pySub y none = none := by
  cases y <;> rfl

lemma pySub_none_left (y : PyFloat) : pySub none y = none := by
  cases y <;> rfl

lemma zipWith_returns_of_pos (log : ℚ → ℚ) :
    ∀ (q : List ℚ) (a : ℚ), (∀ x ∈ a :: q, 0 < x) →
      List.zipWith (fun prev cur => pySub (npLog log cur) (npLog log prev)) (a :: q) q
        = (List.zipWith (fun prev cur => log cur - log prev) (a :: q) q).map some
  | [], _, _ => rfl
  | b :: q', a, h => by
      have ha : 0 < a := h a (List.mem_cons_self _ _)
      have hb : 0 < b := h b (List.mem_cons_of_mem _ (List.mem_cons_self _ _))
      rw [List.zipWith_cons_cons, List.zipWith_cons_cons, List.map_cons,
        zipWith_returns_of_pos log q' b (fun x hx => h x (List.mem_cons_of_mem _ hx))]
      simp [pySub, npLog, ha, hb]

lemma dropna_dailyLogReturns_of_pos (log : ℚ → ℚ) (prices : List ℚ)
    (hpos : ∀ x ∈ prices, 0 < x) :
    dropna (dailyLogReturns log prices) = specReturns log prices := by
  cases prices with
  | nil => rfl
  | cons a q =>
      rw [dailyLogReturns, dropna, List.filterMap_cons]
      simp only [id]
      rw [zipWith_returns_of_pos log q a hpos, List.filterMap_map]
      have : (id ∘ some : ℚ → Option ℚ) = some := rfl
      rw [this, List.filterMap_some, specReturns]
      rfl

lemma dailyLogReturns_length (log : ℚ → ℚ) (p : List ℚ) :
    (dailyLogReturns log p).length = p.length := by
  cases p with
  | nil => rfl
  | cons a q =>
      simp only [dailyLogReturns, List.length_cons, List.length_zipWith]
      omega

lemma specReturns_length (log : ℚ → ℚ) (p : List ℚ) :
    (specReturns log p).length = p.length - 1 := by
  cases p with
  | nil => rfl
  | cons a q =>
      simp only [specReturns, List.tail_cons, List.length_zipWith, List.length_cons]
      omega

lemma z_score_length (sqrt : ℚ → ℚ) (s : List ℚ) :
    (z_score sqrt s).length = s.length := by
  rw [z_score]
  cases pdStd sqrt s <;> simp

lemma z_score_of_sd_ne_zero (sqrt : ℚ → ℚ) (s : List ℚ) (h2 : 2 ≤ s.length)
    (hsd : sqrt (sampleVar s) ≠ 0) :
    z_score sqrt s = s.map (fun x => some ((x - sampleMean s) / sqrt (sampleVar s))) := by
  have hstd : pdStd sqrt s = some (sqrt (sampleVar s)) := by
    rw [pdStd, if_neg (by omega)]
  rw [z_score, hstd]
  exact List.map_congr_left fun x _ => by rw [if_neg hsd]

lemma dropna_map_some (l : List ℚ) : dropna (l.map some) = l := by
  rw [dropna, List.filterMap_map]
  have : (id ∘ some : ℚ → Option ℚ) = some := rfl
  rw [this, List.filterMap_some]

/-- Claim C6: for every price series with n points (n at least 2, all
prices strictly positive), the z-score series produced by the pipeline of
`main` has exactly n - 1 entries: the first date, whose return is the
undefined shift entry, is dropped by `dropna` and never retained. -/
theorem C6_zscore_series_length (log sqrt : ℚ → ℚ) (prices : List ℚ)
    (hlen : 2 ≤ prices.length) (hpos : ∀ x ∈ prices, 0 < x) :
    (analysisZScores log sqrt prices).length = prices.length - 1 := by
  rw [analysisZScores, z_score_length, dropna_dailyLogReturns_of_pos log prices hpos,
    specReturns_length]

/-- Witness for C6 at the concrete price series of the specification
scenario, 100, 105, 100, 95, 100. -/
theorem C6_witness :
    (2 ≤ ([100, 105, 100, 95, 100] : List ℚ).length ∧
        ∀ x ∈ ([100, 105, 100, 95, 100] : List ℚ), 0 < x) ∧
      (analysisZScores id id [100, 105, 100, 95, 100]).length
        = ([100, 105, 100, 95, 100] : List ℚ).length - 1 :=
  ⟨⟨by norm_num, by
      intro x hx
      simp only [List.mem_cons, List.not_mem_nil, or_false] at hx
      rcases hx with rfl | rfl | rfl | rfl | rfl <;> norm_num⟩,
    C6_zscore_series_length id id _ (by norm_num)
      (by
        intro x hx
        simp only [List.mem_cons, List.not_mem_nil, or_false] at hx
        rcases hx with rfl | rfl | rfl | rfl | rfl <;> norm_num)⟩

/-- Claim C2: for every price series of length at least 2 with all prices
strictly positive (and a well-defined nonzero sample standard deviation of
the returns), the engine computes the log return of each adjacent pair,
then the arithmetic mean and the sample standard deviation (divisor n - 1)
of the entire return series, and outputs each normalized return; the
statistics are those of the whole series, as the spec-side definitions
`specReturns` and `specZScores` word it. -/
theorem C2_engine_matches_spec (log sqrt : ℚ → ℚ) (prices : List ℚ)
    (hlen : 2 ≤ prices.length) (hpos : ∀ x ∈ prices, 0 < x)
    (hn : 2 ≤ (specReturns log prices).length)
    (hsd : sqrt (sampleVar (specReturns log prices)) ≠ 0) :
    dropna (dailyLogReturns log prices) = specReturns log prices ∧
      analysisZScores log sqrt prices = (specZScores log sqrt prices).map some := by
  have hret := dropna_dailyLogReturns_of_pos log prices hpos
  refine ⟨hret, ?_⟩
  rw [analysisZScores, hret, z_score_of_sd_ne_zero sqrt _ hn hsd, specZScores, List.map_map]
  rfl

/-- Witness for C2 at the price series 1, 1, 2, 4 with the abstract log
and square root both instantiated to the identity: the return series is
0, 1, 2, its sample variance is 1, and the z-scores are -1, 0, 1. -/
theorem C2_witness :
    (2 ≤ ([1, 1, 2, 4] : List ℚ).length ∧
        2 ≤ (specReturns id ([1, 1, 2, 4] : List ℚ)).length ∧
        id (sampleVar (specReturns id ([1, 1, 2, 4] : List ℚ))) ≠ 0) ∧
      analysisZScores id id [1, 1, 2, 4] = (specZScores id id [1, 1, 2, 4]).map some ∧
      specZScores id id [1, 1, 2, 4] = [-1, 0, 1] := by
  have hpos : ∀ x ∈ ([1, 1, 2, 4] : List ℚ), 0 < x := by
    intro x hx
    simp only [List.mem_cons, List.not_mem_nil, or_false] at hx
    rcases hx with rfl | rfl | rfl | rfl <;> norm_num
  have hn : 2 ≤ (specReturns id ([1, 1, 2, 4] : List ℚ)).length := by
    norm_num [specReturns]
  have hsd : id (sampleVar (specReturns id ([1, 1, 2, 4] : List ℚ))) ≠ 0 := by
    norm_num [specReturns, sampleVar, sampleMean]
  refine ⟨⟨by norm_num, hn, hsd⟩,
    (C2_engine_matches_spec id id _ (by norm_num) hpos hn hsd).2, ?_⟩
  norm_num [specZScores, specReturns, sampleVar, sampleMean]

/-- Claim C7: for every price series with at least two points, all
strictly positive, whose returns are not all identical, the z-score
series produced by the pipeline is all finite, and it has sample mean
exactly 0 and sample standard deviation exactly 1 (the floating tolerance
of the claim is exact equality over ℚ).  The abstract square root is
assumed correct at the two points where it is consulted: it squares back
to the sample variance of the returns, and it sends 1 to 1. -/
theorem C7_zscores_normalized (log sqrt : ℚ → ℚ) (prices : List ℚ)
    (hlen : 2 ≤ prices.length) (hpos : ∀ x ∈ prices, 0 < x)
    (hne : ∃ a ∈ dropna (dailyLogReturns log prices),
      ∃ b ∈ dropna (dailyLogReturns log prices), a ≠ b)
    (hsq : sqrt (sampleVar (dropna (dailyLogReturns log prices))) ^ 2
      = sampleVar (dropna (dailyLogReturns log prices)))
    (hone : sqrt 1 = 1) :
    analysisZScores log sqrt prices
        = (dropna (analysisZScores log sqrt prices)).map some ∧
      sampleMean (dropna (analysisZScores log sqrt prices)) = 0 ∧
      pdStd sqrt (dropna (analysisZScores log sqrt prices)) = some 1 := by
  obtain ⟨a, ha, b, hb, hab⟩ := hne
  have h2 : 2 ≤ (dropna (dailyLogReturns log prices)).length :=
    two_le_length_of_mem_ne _ a b ha hb hab
  have hV : 0 < sampleVar (dropna (dailyLogReturns log prices)) :=
    sampleVar_pos _ a b ha hb hab
  have hsd : sqrt (sampleVar (dropna (dailyLogReturns log prices))) ≠ 0 := by
    intro h
    rw [h] at hsq
    exact hV.ne' (hsq.symm.trans (zero_pow (by norm_num)))
  have hz : analysisZScores log sqrt prices
      = ((dropna (dailyLogReturns log prices)).map
          (fun x => (x - sampleMean (dropna (dailyLogReturns log prices)))
            / sqrt (sampleVar (dropna (dailyLogReturns log prices))))).map some := by
    rw [analysisZScores, z_score_of_sd_ne_zero sqrt _ h2 hsd, List.map_map]
    rfl
  have hvals : dropna (analysisZScores log sqrt prices)
      = (dropna (dailyLogReturns log prices)).map
          (fun x => (x - sampleMean (dropna (dailyLogReturns log prices)))
            / sqrt (sampleVar (dropna (dailyLogReturns log prices)))) := by
    rw [hz, dropna_map_some]
  refine ⟨by rw [hvals, hz], ?_, ?_⟩
  · rw [hvals, sampleMean_center]
  · rw [hvals, pdStd, if_neg (by rw [List.length_map]; omega),
      sampleVar_center _ _ h2 hsq hV.ne', hone]

/-- Witness for C7 at the price series 1, 1, 2, 4 with log and square
root instantiated to the identity: the returns 0, 1, 2 are not all
identical and have sample variance 1; the z-scores -1, 0, 1 have sample
mean 0 and sample standard deviation 1. -/
theorem C7_witness :
    ((0 : ℚ) ∈ dropna (dailyLogReturns id [1, 1, 2, 4]) ∧
        (1 : ℚ) ∈ dropna (dailyLogReturns id [1, 1, 2, 4]) ∧
        id (sampleVar (dropna (dailyLogReturns id ([1, 1, 2, 4] : List ℚ)))) ^ 2
          = sampleVar (dropna (dailyLogReturns id ([1, 1, 2, 4] : List ℚ)))) ∧
      sampleMean (dropna (analysisZScores id id [1, 1, 2, 4])) = 0 ∧
      pdStd id (dropna (analysisZScores id id [1, 1, 2, 4])) = some 1 := by
  have hret : dropna (dailyLogReturns id ([1, 1, 2, 4] : List ℚ)) = [0, 1, 2] := by
    norm_num [dropna, dailyLogReturns, npLog, pySub, List.filterMap_cons]
  have hvar : sampleVar (dropna (dailyLogReturns id ([1, 1, 2, 4] : List ℚ))) = 1 := by
    rw [hret]
    norm_num [sampleVar, sampleMean]
  have h := C7_zscores_normalized id id [1, 1, 2, 4] (by norm_num)
    (by
      intro x hx
      simp only [List.mem_cons, List.not_mem_nil, or_false] at hx
      rcases hx with rfl | rfl | rfl | rfl <;> norm_num)
    (⟨0, by rw [hret]; norm_num, 1, by rw [hret]; norm_num, by norm_num⟩)
    (by rw [hvar]; simp)
    rfl
  exact ⟨⟨by rw [hret]; norm_num, by rw [hret]; norm_num, by rw [hvar]; simp⟩, h.2.1, h.2.2⟩

lemma mkRow_observed_count (Phi : ℚ → ℚ) (zs : List PyFloat) (t : ℚ) :
    (mkRow Phi zs t).observed_count = zs.countP (absGt t) := rfl

/-- Claim C1: for every non-empty z-score series of length n and every
threshold t of the fixed list 1..10, the report row for t has observed
count the number of entries z with t < |z| (strict inequality), expected
count 2 * (1 - Phi t) * n, observed percentage observed over n times 100,
expected percentage 2 * (1 - Phi t) * 100, and both differences computed
as observed minus expected; that row is among the rows the comparator
produces. -/
theorem C1_distribution_report (Phi : ℚ → ℚ) (zs : List ℚ) (hn : zs ≠ [])
    (t : ℚ) (ht : t ∈ thresholds) :
    mkRow Phi (zs.map some) t =
      { threshold := t
        observed_count := zs.countP fun z => decide (t < |z|)
        observed_pct := some ((zs.countP fun z => decide (t < |z|) : ℚ) / zs.length * 100)
        expected_count := 2 * (1 - Phi t) * zs.length
        expected_pct := 2 * (1 - Phi t) * 100
        diff_count := (zs.countP fun z => decide (t < |z|) : ℚ)
          - 2 * (1 - Phi t) * zs.length
        diff_pct := some ((zs.countP fun z => decide (t < |z|) : ℚ) / zs.length * 100
          - 2 * (1 - Phi t) * 100) } ∧
      mkRow Phi (zs.map some) t ∈ compute_distribution_stats Phi (zs.map some) := by
  have hcnt : (zs.map some).countP (absGt t) = zs.countP fun z => decide (t < |z|) := by
    rw [List.countP_map]
    rfl
  have hn0 : zs.length ≠ 0 := fun h => hn (List.length_eq_zero.mp h)
  refine ⟨?_, List.mem_map_of_mem _ ht⟩
  rw [mkRow]
  simp only [List.length_map, hcnt, if_neg hn0]

/-- Witness for C1: the z-score series 3, 1/2 at threshold 1 with the
abstract normal CDF sent to the constant 1/2, giving expected
probability 1: one entry exceeds in absolute value, half the series,
against expected count 2 and expected percentage 100. -/
theorem C1_witness :
    (([3, 1/2] : List ℚ) ≠ [] ∧ (1 : ℚ) ∈ thresholds) ∧
      mkRow (fun _ => 1/2) (([3, 1/2] : List ℚ).map some) 1 =
        { threshold := 1, observed_count := 1, observed_pct := some 50,
          expected_count := 2, expected_pct := 100,
          diff_count := -1, diff_pct := some (-50) } := by
  have h := (C1_distribution_report (fun _ => 1/2) [3, 1/2] (by simp) 1
    (by norm_num [thresholds])).1
  refine ⟨⟨by simp, by norm_num [thresholds]⟩, ?_⟩
  rw [h]
  norm_num [List.countP_cons, List.countP_nil, abs]

lemma countP_absGt_antitone (zs : List PyFloat) (t1 t2 : ℚ) (h : t1 ≤ t2) :
    zs.countP (absGt t2) ≤ zs.countP (absGt t1) := by
  induction zs with
  | nil => simp
  | cons a tl ih =>
      rw [List.countP_cons, List.countP_cons]
      have himp : absGt t2 a = true → absGt t1 a = true := by
        cases a with
        | none => simp [absGt]
        | some z =>
            simp only [absGt, decide_eq_true_eq]
            exact fun hz => lt_of_le_of_lt h hz
      by_cases h2 : absGt t2 a = true
      · rw [if_pos h2, if_pos (himp h2)]
        omega
      · rw [if_neg h2]
        split <;> omega

/-- Claim C10: for thresholds t1 at most t2, the observed count of the
row for t2 is at most that of the row for t1, and consequently the rows
of the report, whose thresholds ascend from 1 to 10, carry
non-increasing observed counts. -/
theorem C10_observed_count_antitone (Phi : ℚ → ℚ) (z_scores : List PyFloat)
    (t1 t2 : ℚ) (h : t1 ≤ t2) :
    (mkRow Phi z_scores t2).observed_count ≤ (mkRow Phi z_scores t1).observed_count ∧
      (compute_distribution_stats Phi z_scores).Pairwise
        (fun r1 r2 => r2.observed_count ≤ r1.observed_count) := by
  constructor
  · rw [mkRow_observed_count, mkRow_observed_count]
    exact countP_absGt_antitone z_scores t1 t2 h
  · rw [compute_distribution_stats, List.pairwise_map]
    have hthr : thresholds.Pairwise (· ≤ ·) := by
      norm_num [thresholds, List.pairwise_cons]
    refine hthr.imp ?_
    intro a b hab
    rw [mkRow_observed_count, mkRow_observed_count]
    exact countP_absGt_antitone z_scores a b hab

/-- Witness for C10 at the series 3, 3/2, NaN and the threshold pair
1, 2: two entries exceed 1 in absolute value but only one exceeds 2. -/
theorem C10_witness :
    (mkRow (fun _ => 0) [some 3, some (3/2), none] 2).observed_count ≤
        (mkRow (fun _ => 0) [some 3, some (3/2), none] 1).observed_count ∧
      (compute_distribution_stats (fun _ => 0) [some 3, some (3/2), none]).Pairwise
        (fun r1 r2 => r2.observed_count ≤ r1.observed_count) :=
  C10_observed_count_antitone (fun _ => 0) [some 3, some (3/2), none] 1 2 (by norm_num)

lemma none_mem_zip_of_bad (log : ℚ → ℚ) :
    ∀ (q : List ℚ) (a x : ℚ), x ∈ q → x ≤ 0 →
      none ∈ List.zipWith (fun prev cur => pySub (npLog log cur) (npLog log prev)) (a :: q) q
  | [], _, x, hx, _ => by simp at hx
  | c :: q', a, x, hx, hle => by
      rw [List.zipWith_cons_cons]
      rcases List.mem_cons.mp hx with rfl | hx'
      · have hhead : pySub (npLog log x) (npLog log a) = none := by
          rw [npLog, if_neg (not_lt.mpr hle), pySub_none_left]
        exact List.mem_cons.mpr (Or.inl hhead.symm)
      · exact List.mem_cons_of_mem _ (none_mem_zip_of_bad log q' c x hx' hle)

/-- Counterexample to claim C3 as stated: on the price series 1, -1 the
engine raises nothing — no InvalidInputError exists anywhere in the
source — and the logarithm of the non-positive price yields a non-finite
value that propagates silently into the two-entry delta column. -/
theorem C3_counterexample :
    dailyLogReturns id [1, -1] = [none, none] ∧
      (dailyLogReturns id [1, -1]).length = 2 := by
  constructor
  · norm_num [dailyLogReturns, npLog, pySub]
  · rfl

/-- Amended claim C3: for every price series of length at least 2
containing a price at most 0, `compute_daily_price_change` raises no
error; it returns the full delta column, one entry per input row, in
which some return entry besides the leading shift entry is non-finite
(the NaN or infinity from the logarithm propagates silently). -/
theorem C3_amended_log_nan_propagates (log : ℚ → ℚ) (p : List ℚ)
    (hlen : 2 ≤ p.length) (hbad : ∃ x ∈ p, x ≤ 0) :
    (dailyLogReturns log p).length = p.length ∧
      none ∈ (dailyLogReturns log p).tail := by
  refine ⟨dailyLogReturns_length log p, ?_⟩
  obtain ⟨x, hx, hle⟩ := hbad
  rcases p with _ | ⟨a, _ | ⟨c, q⟩⟩
  · simp at hlen
  · simp at hlen
  · rw [dailyLogReturns, List.tail_cons]
    rcases List.mem_cons.mp hx with rfl | hx'
    · rw [List.zipWith_cons_cons]
      have hx0 : npLog log x = none := by
        rw [npLog, if_neg (not_lt.mpr hle)]
      rw [hx0, pySub_none_right]
      exact List.mem_cons.mpr (Or.inl rfl)
    · exact none_mem_zip_of_bad log (c :: q) a x hx' hle

/-- Witness for the amended C3 at the price series 1, -1. -/
theorem C3_witness :
    (2 ≤ ([1, -1] : List ℚ).length ∧ ∃ x ∈ ([1, -1] : List ℚ), x ≤ 0) ∧
      (dailyLogReturns id [1, -1]).length = ([1, -1] : List ℚ).length ∧
      none ∈ (dailyLogReturns id [1, -1]).tail :=
  ⟨⟨by norm_num, ⟨-1, by simp, by norm_num⟩⟩,
    C3_amended_log_nan_propagates id [1, -1] (by norm_num) ⟨-1, by simp, by norm_num⟩⟩

lemma z_score_of_zero_var (sqrt : ℚ → ℚ) (s : List ℚ) (hV : sampleVar s = 0)
    (hsqrt : sqrt 0 = 0) : z_score sqrt s = s.map (fun _ => none) := by
  rw [z_score]
  split
  · rfl
  · rename_i sd hsd
    rw [pdStd] at hsd
    split_ifs at hsd with hl
    have hsd0 : sd = 0 := by
      rw [hV, hsqrt] at hsd
      exact Option.some.inj hsd.symm
    exact List.map_congr_left fun x _ => by rw [if_pos hsd0]

/-- Counterexample to claim C4 as stated: on the constant price series
1, 1, 1 the returns are 0, 0 with sample standard deviation 0, and the
engine raises nothing — no DegenerateDistributionError exists anywhere
in the source — instead silently returning a series of NaN entries from
the division by zero. -/
theorem C4_counterexample :
    analysisZScores id id [1, 1, 1] = [none, none] := by
  norm_num [analysisZScores, z_score, dailyLogReturns, npLog, pySub, dropna, pdStd,
    sampleVar, sampleMean, List.filterMap_cons]

/-- Amended claim C4: whenever the returns are all identical (sample
standard deviation 0), the engine raises no error; every z-score entry
it returns is non-finite (0 divided by 0 is NaN), silently. -/
theorem C4_amended_nan_on_degenerate (log sqrt : ℚ → ℚ) (prices : List ℚ)
    (hsqrt : sqrt 0 = 0)
    (hconst : ∀ x ∈ dropna (dailyLogReturns log prices),
      ∀ y ∈ dropna (dailyLogReturns log prices), x = y) :
    analysisZScores log sqrt prices
      = (dropna (dailyLogReturns log prices)).map (fun _ => none) := by
  rw [analysisZScores]
  exact z_score_of_zero_var sqrt _ (sampleVar_of_all_eq _ hconst) hsqrt

/-- Witness for the amended C4 at the constant price series 1, 1, 1. -/
theorem C4_witness :
    (id (0 : ℚ) = 0 ∧
        ∀ x ∈ dropna (dailyLogReturns id [1, 1, 1]),
          ∀ y ∈ dropna (dailyLogReturns id [1, 1, 1]), x = y) ∧
      analysisZScores id id [1, 1, 1]
        = (dropna (dailyLogReturns id [1, 1, 1])).map (fun _ => none) := by
  have hret : dropna (dailyLogReturns id ([1, 1, 1] : List ℚ)) = [0, 0] := by
    norm_num [dropna, dailyLogReturns, npLog, pySub, List.filterMap_cons]
  have hconst : ∀ x ∈ dropna (dailyLogReturns id ([1, 1, 1] : List ℚ)),
      ∀ y ∈ dropna (dailyLogReturns id ([1, 1, 1] : List ℚ)), x = y := by
    rw [hret]
    intro x hx y hy
    simp only [List.mem_cons, List.not_mem_nil, or_false] at hx hy
    rcases hx with rfl | rfl <;> rcases hy with rfl | rfl <;> rfl
  exact ⟨⟨rfl, hconst⟩, C4_amended_nan_on_degenerate id id [1, 1, 1] rfl hconst⟩

/-- Counterexample to claim C5 as stated: on the empty z-score series the
comparator raises nothing — no EmptySeriesError exists anywhere in the
source — and returns the full ten-row report in which every observed
percentage is the NaN of 0 divided by 0 (here with the abstract normal
CDF sent to the constant 0, so each expected percentage is 200). -/
theorem C5_counterexample :
    compute_distribution_stats (fun _ => 0) [] =
      thresholds.map (fun t =>
        { threshold := t, observed_count := 0, observed_pct := none,
          expected_count := 0, expected_pct := 200, diff_count := 0, diff_pct := none }) := by
  norm_num [compute_distribution_stats, mkRow, thresholds, absGt]

/-- Amended claim C5: on the empty z-score series the comparator returns
a report with one row per threshold whose observed and difference
percentages are all NaN; no error is raised. -/
theorem C5_amended_empty_nan_report (Phi : ℚ → ℚ) :
    (compute_distribution_stats Phi []).length = 10 ∧
      ∀ row ∈ compute_distribution_stats Phi [],
        row.observed_pct = none ∧ row.diff_pct = none := by
  refine ⟨rfl, ?_⟩
  intro row hrow
  rw [compute_distribution_stats] at hrow
  obtain ⟨t, _, rfl⟩ := List.mem_map.mp hrow
  exact ⟨rfl, rfl⟩

/-- Witness for the amended C5: the row for threshold 1 of the report on
the empty series has NaN percentages. -/
theorem C5_witness :
    (compute_distribution_stats (fun _ => (0 : ℚ)) []).length = 10 ∧
      (mkRow (fun _ => (0 : ℚ)) [] 1).observed_pct = none ∧
      (mkRow (fun _ => (0 : ℚ)) [] 1).diff_pct = none :=
  ⟨(C5_amended_empty_nan_report (fun _ => 0)).1,
    (C5_amended_empty_nan_report (fun _ => 0)).2 _
      (List.mem_map_of_mem _ (by norm_num [thresholds]))⟩

/-- Claim C8: a POST to the analyze route receives the 400 response
exactly when the index field is missing, empty, or not one of the four
fixed tickers; for a valid ticker the (spec-modelled) analysis is run
and its results page is returned. -/
theorem C8_analyze_route (f : Option String) :
    TICKERS.length = 4 ∧
      (analyze f = AnalyzeResponse.badRequest ↔
        f = none ∨ f = some "" ∨ ∃ s, f = some s ∧ s ∉ TICKERS) ∧
      ∀ s, f = some s → s ∈ TICKERS →
        analyze f = AnalyzeResponse.resultsPage (analyze_index_for_web s) := by
  refine ⟨rfl, ?_, ?_⟩
  · cases f with
    | none => simp [analyze]
    | some s =>
        simp only [analyze]
        by_cases hcond : s = "" ∨ s ∉ TICKERS
        · rw [if_pos hcond]
          constructor
          · intro _
            rcases hcond with h | h
            · exact Or.inr (Or.inl (by rw [h]))
            · exact Or.inr (Or.inr ⟨s, rfl, h⟩)
          · intro _
            rfl
        · rw [if_neg hcond]
          push_neg at hcond
          constructor
          · intro habs
            exact AnalyzeResponse.noConfusion habs
          · rintro (h | h | ⟨u, hu, hmem⟩)
            · exact Option.noConfusion h
            · exact absurd (Option.some.inj h) hcond.1
            · exact absurd (Option.some.inj hu ▸ hcond.2) hmem
  · rintro s rfl hmem
    have hnot : ¬(s = "" ∨ s ∉ TICKERS) := by
      rintro (rfl | h)
      · simp [TICKERS] at hmem
      · exact h hmem
    simp only [analyze]
    rw [if_neg hnot]

/-- Witness for C8: the valid ticker DJIA reaches the results page, and
the missing field receives the 400 response. -/
theorem C8_witness :
    ("DJIA" ∈ TICKERS) ∧
      analyze (some "DJIA") = AnalyzeResponse.resultsPage (analyze_index_for_web "DJIA") ∧
      analyze none = AnalyzeResponse.badRequest :=
  ⟨by decide,
    (C8_analyze_route (some "DJIA")).2.2 "DJIA" rfl (by decide),
    (C8_analyze_route none).2.1.mpr (Or.inl rfl)⟩

/-- Counterexample to claim C9 as stated: computing the delta column does
not leave the input dataframe object unchanged — the column assignment in
`compute_daily_price_change` writes a new Delta column into the very
dataframe the caller passed (and returns that same object). -/
theorem C9_counterexample :
    compute_daily_price_change id { close := [1, 2], delta := none } ≠
      { close := [1, 2], delta := none } := by
  simp [compute_daily_price_change]

/-- Amended claim C9: the delta computation changes the dataframe it was
given only by writing the Delta column; the Close price data itself is
never modified, and the raw price cache file remains the only state
mutated across invocations. -/
theorem C9_amended_only_column_added (log : ℚ → ℚ) (df : DataFrame) :
    (compute_daily_price_change log df).close = df.close ∧
      (compute_daily_price_change log df).delta = some (dailyLogReturns log df.close) :=
  ⟨rfl, rfl⟩

end Demeanor
